import Mathlib

set_option maxRecDepth 1000000

/-!
Verification of the resizeImage batch photo pipeline.

The development shallowly embeds the program's image pipeline:
grey-background suppression, transparency flattening, border trimming,
aspect-preserving resizing, and canvas centering, together with the
per-file driver.  Images are finite grids of 8-bit RGBA pixels stored as
a list of rows.  The resizer's dimension arithmetic is performed by the
program in IEEE-754 double precision; it is embedded exactly via a
round-to-nearest-even model over the rationals (every intermediate value
in play is a positive normal-range binary64 value, so an unbounded
exponent with a 53-bit significand is an exact model).
-/

namespace ResizeImage

/-- Pixel with 8-bit red, green, blue and alpha channels (stored as `Nat`,
well-formed images keep every channel below 256). -/
structure RGBA where
  r : Nat
  g : Nat
  b : Nat
  a : Nat
deriving DecidableEq, Repr

/-- RGB triple used for thresholds, replacement colors and backgrounds. -/
structure Color3 where
  r : Nat
  g : Nat
  b : Nat
deriving DecidableEq, Repr

/-- Color mode tag of an image (the pipeline only materializes these two;
`P`/`LA` inputs are converted by the driver before any stage runs). -/
inductive Mode where
  | RGB
  | RGBA
deriving DecidableEq, Repr

/-- Raster image: a mode tag, dimensions, and the pixel grid as a list of
rows (row-major, `pixels[y][x]`).  For `RGB`-mode images the alpha field
is carried along with value 255 by every constructor. -/
structure Image where
  mode : Mode
  width : Nat
  height : Nat
  pixels : List (List RGBA)
deriving DecidableEq, Repr

/-- Pixel lookup (out-of-range coordinates return the zero pixel; all
theorems query in range). -/
def getPixel (img : Image) (x y : Nat) : RGBA :=
  (img.pixels.getD y []).getD x ⟨0, 0, 0, 0⟩

/-- PIL-style `getpixel` taking a coordinate pair. -/
def getpixel (img : Image) (xy : Nat × Nat) : RGBA :=
  getPixel img xy.1 xy.2

/-- Build an image from a generator function (used by stage transforms). -/
def Image.ofFn (mode : Mode) (w h : Nat) (f : Nat → Nat → RGBA) : Image :=
  ⟨mode, w, h, (List.range h).map (fun y => (List.range w).map (fun x => f x y))⟩

/-- PIL `Image.new(mode, (w, h), c)`: a uniform image of color `c`. -/
def Image.new (mode : Mode) (w h : Nat) (c : RGBA) : Image :=
  Image.ofFn mode w h (fun _ _ => c)

/-- Structural well-formedness: the grid is a `height`-list of
`width`-rows and every channel fits in a byte. -/
def WF (img : Image) : Prop :=
  img.pixels.length = img.height ∧
  (∀ row ∈ img.pixels, row.length = img.width) ∧
  (∀ row ∈ img.pixels, ∀ p ∈ row, p.r ≤ 255 ∧ p.g ≤ 255 ∧ p.b ≤ 255 ∧ p.a ≤ 255)

instance (img : Image) : Decidable (WF img) := by
  unfold WF; infer_instance

/-! ## Exact model of the binary64 arithmetic used by `resize_image`

`aspect_ratio = w / h`, `max_size / aspect_ratio` and
`max_size * aspect_ratio` are IEEE-754 double operations: each rounds the
exact rational result to 53 significant bits, round-to-nearest,
ties-to-even.  All values arising here are positive and far from the
exponent range limits, so rounding the exact rational to a 53-bit
significand with an unbounded exponent is an exact embedding. -/

/-- Number of binary digits of `n` (fuel-driven; `bitLen 0 = 0`). -/
def bitLenAux : Nat → Nat → Nat
  | 0, _ => 0
  | fuel + 1, n => if n = 0 then 0 else bitLenAux fuel (n / 2) + 1

/-- Bit length of a natural number: `2 ^ (bitLen n - 1) ≤ n < 2 ^ bitLen n`
for `n ≠ 0`. -/
def bitLen (n : Nat) : Nat :=
  bitLenAux n n

/-- Round `p / q` to the nearest integer, ties to even. -/
def rneNat (p q : Nat) : Nat :=
  let n := p / q
  let r := p % q
  if 2 * r < q then n
  else if q < 2 * r then n + 1
  else if n % 2 = 0 then n else n + 1

/-- Round the positive rational `a / b` to a 53-bit significand,
round-to-nearest ties-to-even, returning the value as `m · 2 ^ e`
(a dyadic pair).  Requires `0 < b` and `b ≤ a * 2 ^ 200` (the value is
at least `2 ^ (-200)`, amply true for every quantity in the pipeline);
`a = 0` returns zero. -/
def flFrac (a b : Nat) : Nat × Int :=
  if a = 0 then (0, 0)
  else
    let len := bitLen (a * 2 ^ 200 / b)
    let s : Int := (len : Int) - 253
    (rneNat (a * 2 ^ (-s).toNat) (b * 2 ^ s.toNat), s)

/-- Rational value of a dyadic pair `m · 2 ^ e`. -/
def dyVal (p : Nat × Int) : ℚ :=
  (p.1 : ℚ) * (2 : ℚ) ^ p.2

/-- Python `int(x)` on a nonnegative dyadic value: truncation (= floor). -/
def truncDy (p : Nat × Int) : Nat :=
  if 0 ≤ p.2 then p.1 * 2 ^ p.2.toNat else p.1 / 2 ^ (-p.2).toNat

/-- Dimension arithmetic of `resize_image` (lines 61-69 of the source),
with the double-precision operations modelled exactly:
`aspect_ratio = fl(w / h)`; if `w > h` the new size is
`(max_size, int(fl(max_size / aspect_ratio)))`, otherwise
`(int(fl(max_size * aspect_ratio)), max_size)`. -/
def resizeDims (w h ms : Nat) : Nat × Nat :=
  let ar := flFrac w h
  if h < w then
    (ms, truncDy (flFrac (ms * 2 ^ (-ar.2).toNat) (ar.1 * 2 ^ ar.2.toNat)))
  else
    (truncDy (flFrac (ms * ar.1 * 2 ^ ar.2.toNat) (2 ^ (-ar.2).toNat)), ms)

/-! ## The pipeline stages (translated from `src/resizeImage.py`) -/

/-- `remove_grey_background` (lines 5-25).  `np.array(image)` followed by
`red, green, blue, alpha = data.T` unpacks exactly four channel planes:
on a non-RGBA image (e.g. 3-channel RGB) the unpacking raises a
`ValueError`, modelled by the `error` branch.  Otherwise each pixel whose
red, green and blue channels are all `≥ grey_threshold` has its RGB
channels overwritten with `replace_color`, alpha untouched. -/
def remove_grey_background (image : Image)
    (grey_threshold replace_color : Color3) : Except String Image :=
  if image.mode = .RGBA then
    .ok ⟨image.mode, image.width, image.height,
      image.pixels.map (List.map (fun p =>
        if grey_threshold.r ≤ p.r ∧ grey_threshold.g ≤ p.g ∧ grey_threshold.b ≤ p.b
        then ⟨replace_color.r, replace_color.g, replace_color.b, p.a⟩
        else p))⟩
  else
    .error "not enough values to unpack"

/-- PIL `MULDIV255`: `round(a * b / 255)` computed exactly as in the C
blend kernel: `tmp = a*b + 128; ((tmp >> 8) + tmp) >> 8`. -/
def muldiv255 (a b : Nat) : Nat :=
  let t := a * b + 128
  (t + t / 256) / 256

/-- One channel of PIL `Image.composite(im1, im2, mask)`:
`im1` weighted by the mask, `im2` by its complement. -/
def blendc (m a b : Nat) : Nat :=
  muldiv255 a m + muldiv255 b (255 - m)

/-- PIL `Image.composite(image, bg, alpha)` where the mask is the alpha
channel of `image` itself (as in `ensure_pure_white_background`). -/
def compositeAlpha (fg bg : Image) : Image :=
  Image.ofFn fg.mode fg.width fg.height (fun x y =>
    let p := getPixel fg x y
    let q := getPixel bg x y
    ⟨blendc p.a p.r q.r, blendc p.a p.g q.g, blendc p.a p.b q.b, blendc p.a p.a q.a⟩)

/-- PIL `convert("RGB")`: drop the alpha channel (stored as 255). -/
def convertRGB (img : Image) : Image :=
  ⟨.RGB, img.width, img.height,
    img.pixels.map (List.map (fun p => ⟨p.r, p.g, p.b, 255⟩))⟩

/-- PIL `convert("RGBA")` as used by the driver on a freshly loaded
image (RGB-mode pixels carry alpha 255 by convention). -/
def convertRGBA (img : Image) : Image :=
  ⟨.RGBA, img.width, img.height, img.pixels⟩

/-- `ensure_pure_white_background` (lines 27-41): grey suppression with
the default threshold and replacement, then transparency flattening onto
a solid `background_color` canvas when the mode carries alpha, and a
final conversion to 3-channel RGB. -/
def ensure_pure_white_background (image : Image)
    (background_color : Color3) : Except String Image :=
  match remove_grey_background image ⟨200, 200, 200⟩ ⟨255, 255, 255⟩ with
  | .error e => .error e
  | .ok image =>
    if image.mode = .RGBA then
      let bg := Image.new .RGBA image.width image.height
        ⟨background_color.r, background_color.g, background_color.b, 255⟩
      .ok (convertRGB (compositeAlpha image bg))
    else
      .ok (convertRGB image)

/-- Absolute difference of two channel values. -/
def chDiff (a b : Nat) : Nat :=
  max a b - min a b

/-- `ImageChops.difference`: per-pixel, per-channel absolute difference. -/
def difference (img bg : Image) : Image :=
  Image.ofFn img.mode img.width img.height (fun x y =>
    let p := getPixel img x y
    let q := getPixel bg x y
    ⟨chDiff p.r q.r, chDiff p.g q.g, chDiff p.b q.b, chDiff p.a q.a⟩)

/-- Whether a pixel counts as non-zero for `getbbox` (every band of the
mode participates; RGB has no alpha band). -/
def nonzeroPix (mode : Mode) (p : RGBA) : Bool :=
  match mode with
  | .RGB => p.r != 0 || p.g != 0 || p.b != 0
  | .RGBA => p.r != 0 || p.g != 0 || p.b != 0 || p.a != 0

/-- Row-major list of coordinates of the non-zero pixels of an image. -/
def coords (img : Image) : List (Nat × Nat) :=
  (List.range img.height).flatMap (fun y =>
    (List.range img.width).filterMap (fun x =>
      if nonzeroPix img.mode (getPixel img x y) then some (x, y) else none))

/-- Axis-aligned bounding box, `right`/`bottom` exclusive. -/
structure BBox where
  left : Nat
  top : Nat
  right : Nat
  bottom : Nat
deriving DecidableEq, Repr

/-- Fold minimum of a list with a seed. -/
def minL (x : Nat) (xs : List Nat) : Nat :=
  xs.foldl min x

/-- Fold maximum of a list with a seed. -/
def maxL (x : Nat) (xs : List Nat) : Nat :=
  xs.foldl max x

/-- Bounding box of a list of coordinates (`none` when empty). -/
def bboxOf : List (Nat × Nat) → Option BBox
  | [] => none
  | c :: cs =>
    some ⟨minL c.1 (cs.map Prod.fst), minL c.2 (cs.map Prod.snd),
          maxL c.1 (cs.map Prod.fst) + 1, maxL c.2 (cs.map Prod.snd) + 1⟩

/-- PIL `getbbox`: bounding box of the non-zero region of an image. -/
def getbbox (img : Image) : Option BBox :=
  bboxOf (coords img)

/-- PIL `crop` restricted to an in-bounds box (the only use here:
`getbbox` boxes are always inside the image). -/
def crop (img : Image) (b : BBox) : Image :=
  ⟨img.mode, b.right - b.left, b.bottom - b.top,
    ((img.pixels.drop b.top).take (b.bottom - b.top)).map (fun row =>
      (row.drop b.left).take (b.right - b.left))⟩

/-- `trim_border` (lines 43-55): sample the border color from the
top-left pixel when none is supplied, diff against a uniform image of
that color, and crop to the bounding box of the non-zero difference
(returning the image unmodified when there is none). -/
def trim_border (image : Image) (border_color : Option RGBA) : Image :=
  let c := border_color.getD (getpixel image (0, 0))
  let bg := Image.new image.mode image.width image.height c
  match getbbox (difference image bg) with
  | some bbox => crop image bbox
  | none => image

/-- Content of a successful `image.resize`.  The source uses the LANCZOS
filter; the kernel is an implementation choice the spec leaves open and
no claim observes pixel content of resized images, so content is modelled
by coordinate scaling while the output dimensions follow the requested
size exactly. -/
def resampleCore (img : Image) (w h : Nat) : Image :=
  Image.ofFn img.mode w h (fun x y =>
    getPixel img (x * img.width / w) (y * img.height / h))

/-- PIL `image.resize((w, h), LANCZOS)`.  Pillow validates the target
size before resampling: `xsize < 1 || ysize < 1` in `_imaging.c` raises
`ValueError("height and width must be > 0")`, so a zero dimension is an
error, never a returned image. -/
def resampleTo (img : Image) (w h : Nat) : Except String Image :=
  if w < 1 ∨ h < 1 then .error "height and width must be > 0"
  else .ok (resampleCore img w h)

/-- `resize_image` (lines 57-71): longest side becomes `max_size`, the
other side is the double-precision scaled value truncated to int; the
final `image.resize` call raises when a computed dimension is zero. -/
def resize_image (image : Image) (max_size : Nat) : Except String Image :=
  let d := resizeDims image.width image.height max_size
  resampleTo image d.1 d.2

/-- Integer paste offset of the canvas compositor:
`(canvas_dim - subject_dim) // 2` with Python floor division. -/
def pasteOffset (canvasDim subjectDim : Nat) : Int :=
  ((canvasDim : Int) - (subjectDim : Int)).fdiv 2

/-- PIL `paste` at a (possibly negative) offset: the subject overwrites
the canvas where it lands, clipped to the canvas bounds. -/
def pasteClip (canvas subject : Image) (off : Int × Int) : Image :=
  Image.ofFn canvas.mode canvas.width canvas.height (fun x y =>
    if off.1 ≤ (x : Int) ∧ (x : Int) < off.1 + subject.width ∧
       off.2 ≤ (y : Int) ∧ (y : Int) < off.2 + subject.height
    then getPixel subject ((x : Int) - off.1).toNat ((y : Int) - off.2).toNat
    else getPixel canvas x y)

/-- Canvas compositing step of `process_image` (lines 94-99): a solid
RGB canvas of `final_size` receives the subject centered by floor
division. -/
def composeOnCanvas (subject : Image) (final_size : Nat × Nat)
    (background_color : Color3) : Image :=
  let canvas := Image.new .RGB final_size.1 final_size.2
    ⟨background_color.r, background_color.g, background_color.b, 255⟩
  pasteClip canvas subject
    (pasteOffset final_size.1 subject.width, pasteOffset final_size.2 subject.height)

/-- Index of the last occurrence of a character in a character list,
`-1` when absent (CPython `str.rfind`). -/
def rfindIdx (c : Char) (cs : List Char) : Int :=
  (cs.foldl (fun acc ch => (if ch = c then acc.2 else acc.1, acc.2 + 1))
    ((-1 : Int), (0 : Int))).1

/-- `os.path.splitext(p)[0]` (CPython `genericpath._splitext` with
separator `/`): split at the last dot only when it lies after the last
separator and some non-dot character of the basename precedes it
(leading dots of the basename never start an extension). -/
def splitextBase (p : String) : String :=
  let cs := p.toList
  let sepIndex := rfindIdx '/' cs
  let dotIndex := rfindIdx '.' cs
  if sepIndex < dotIndex ∧
      (List.range cs.length).any (fun i =>
        decide (sepIndex < (i : Int)) && decide ((i : Int) < dotIndex) &&
          (cs.getD i ' ' != '.'))
  then String.mk (cs.take dotIndex.toNat)
  else p

/-- Output path with the extension replaced by `.webp` (line 102). -/
def withWebpExt (p : String) : String :=
  splitextBase p ++ ".webp"

/-- The fallible body of `process_image`'s `try` block: load (decode) the
image, force RGBA, run the four stages, then save (`save` models the
encode/write, which can fail with an I/O error).  Every failure of any
stage surfaces here as an `error` value. -/
def runImage (load : Except String Image) (save : Image → Except String Unit)
    (output_path : String) (max_size : Nat) (final_size : Nat × Nat)
    (background_color : Color3) : Except String (Image × String) := do
  let img0 ← load
  let img := convertRGBA img0
  let img1 ← ensure_pure_white_background img background_color
  let cropped := trim_border img1 none
  let resized ← resize_image cropped max_size
  let final := composeOnCanvas resized final_size background_color
  let _ ← save final
  pure (final, withWebpExt output_path)

/-- `process_image` (lines 73-106): run the pipeline on one file and
catch any failure, emitting either a success line or a diagnostic with
the input path and the failure reason.  It always returns normally. -/
def process_image (input_path output_path : String)
    (load : Except String Image) (save : Image → Except String Unit)
    (max_size : Nat) (final_size : Nat × Nat)
    (background_color : Color3) : Option Image × String :=
  match runImage load save output_path max_size final_size background_color with
  | .ok (final, savedPath) => (some final, "Processed and saved: " ++ savedPath)
  | .error e => (none, "Error processing " ++ input_path ++ ": " ++ e)

/-- ASCII lowercasing of one character (`str.lower()` on filenames). -/
def lowerChar (c : Char) : Char :=
  if 65 ≤ c.toNat ∧ c.toNat ≤ 90 then Char.ofNat (c.toNat + 32) else c

/-- Case-insensitive extension filter of `process_folder` (line 116):
`filename.lower().endswith((".png", ".jpg", ".jpeg", ".bmp", ".gif", ".webp"))`. -/
def hasImageExt (s : String) : Bool :=
  [".png", ".jpg", ".jpeg", ".bmp", ".gif", ".webp"].any
    (fun e => e.toList.isSuffixOf (s.toList.map lowerChar))

/-- `process_folder` (lines 108-119): every directory entry with a
matching extension is processed; the directory is modelled as a list of
file names paired with their decode outcome. -/
def process_folder (input_folder output_folder : String)
    (files : List (String × Except String Image))
    (save : Image → Except String Unit)
    (max_size : Nat) (final_size : Nat × Nat)
    (background_color : Color3) :
    List (Option Image × String) :=
  (files.filter (fun f => hasImageExt f.1)).map (fun f =>
    process_image (input_folder ++ "/" ++ f.1) (output_folder ++ "/" ++ f.1)
      f.2 save max_size final_size background_color)

/-- Difference image used by `trim_border` when no border color is
supplied: the input diffed against a uniform image of its top-left
pixel. -/
def trimDiff (img : Image) : Image :=
  difference img (Image.new img.mode img.width img.height (getpixel img (0, 0)))

/-! ## Concrete images used by witnesses and counterexamples -/

/-- Witness image for the grey-suppression claim: one pixel above the
default threshold (with a non-trivial alpha), one below. -/
def imgC3 : Image :=
  ⟨.RGBA, 2, 1, [[⟨200, 220, 250, 7⟩, ⟨10, 20, 30, 40⟩]]⟩

/-- Expected output of grey suppression on `imgC3`. -/
def outC3 : Image :=
  ⟨.RGBA, 2, 1, [[⟨255, 255, 255, 7⟩, ⟨10, 20, 30, 40⟩]]⟩

/-- Uniform image for the trimmer witness. -/
def imgC4 : Image :=
  Image.new .RGBA 3 2 ⟨5, 6, 7, 8⟩

/-- All-grey RGBA image (alpha varies) for the normalizer witness. -/
def imgC6 : Image :=
  ⟨.RGBA, 1, 2, [[⟨200, 201, 202, 3⟩], [⟨255, 255, 255, 0⟩]]⟩

/-- Fully transparent RGBA image for the flattening witness. -/
def imgC7 : Image :=
  ⟨.RGBA, 2, 1, [[⟨1, 2, 3, 0⟩, ⟨255, 255, 255, 0⟩]]⟩

/-- White-bordered image whose trimmed crop has a top-left pixel that no
longer equals the sampled border color: a second trim crops further. -/
def imgC8 : Image :=
  ⟨.RGB, 4, 4,
    [[⟨255, 255, 255, 255⟩, ⟨255, 255, 255, 255⟩, ⟨255, 255, 255, 255⟩, ⟨255, 255, 255, 255⟩],
     [⟨255, 255, 255, 255⟩, ⟨255, 0, 0, 255⟩, ⟨255, 0, 0, 255⟩, ⟨255, 255, 255, 255⟩],
     [⟨255, 255, 255, 255⟩, ⟨255, 0, 0, 255⟩, ⟨0, 0, 255, 255⟩, ⟨255, 255, 255, 255⟩],
     [⟨255, 255, 255, 255⟩, ⟨255, 255, 255, 255⟩, ⟨255, 255, 255, 255⟩, ⟨255, 255, 255, 255⟩]]⟩

/-- White-bordered image whose trimmed crop keeps the border color at its
top-left corner (an L-shaped subject), for the idempotence witness. -/
def imgC8w : Image :=
  ⟨.RGB, 4, 4,
    [[⟨255, 255, 255, 255⟩, ⟨255, 255, 255, 255⟩, ⟨255, 255, 255, 255⟩, ⟨255, 255, 255, 255⟩],
     [⟨255, 255, 255, 255⟩, ⟨255, 255, 255, 255⟩, ⟨255, 0, 0, 255⟩, ⟨255, 255, 255, 255⟩],
     [⟨255, 255, 255, 255⟩, ⟨255, 0, 0, 255⟩, ⟨255, 255, 255, 255⟩, ⟨255, 255, 255, 255⟩],
     [⟨255, 255, 255, 255⟩, ⟨255, 255, 255, 255⟩, ⟨255, 255, 255, 255⟩, ⟨255, 255, 255, 255⟩]]⟩

/-- RGB-mode (3-channel) input: channel unpacking in
`remove_grey_background` fails on it. -/
def imgC9 : Image :=
  ⟨.RGB, 1, 1, [[⟨10, 20, 30, 255⟩]]⟩

/-- RGBA input for the no-error witness of the normalizer. -/
def imgC9w : Image :=
  ⟨.RGBA, 1, 1, [[⟨10, 20, 30, 40⟩]]⟩

/-- 25×3 image: the double-precision resize arithmetic lands one below
the exact floor (500·3/25 = 60 exactly, the code computes 59). -/
def imgC2 : Image :=
  Image.new .RGB 25 3 ⟨9, 9, 9, 255⟩

/-- 800×600 image of the spec's resize example. -/
def imgC2w : Image :=
  Image.new .RGB 800 600 ⟨9, 9, 9, 255⟩

/-- Oversized subject for the compositor witness. -/
def imgC1 : Image :=
  Image.new .RGB 1200 600 ⟨0, 0, 0, 255⟩

/-- 1×1001 image: resizing with `max_size = 500` computes width 0 and
the resize call raises. -/
def imgC10 : Image :=
  Image.new .RGB 1 1001 ⟨9, 9, 9, 255⟩

/-- 2×3000 image: a second zero-computed-width input, for the C10
witness. -/
def imgC10w : Image :=
  Image.new .RGB 2 3000 ⟨9, 9, 9, 255⟩

/-- A well-formed 1×1 image used in the driver witness. -/
def imgC5 : Image :=
  ⟨.RGBA, 1, 1, [[⟨1, 2, 3, 255⟩]]⟩

/-- Whether an `Except` result is a success. -/
def exceptOk : Except String Image → Bool
  | .ok _ => true
  | .error _ => false

/-! ## Basic lemmas about the image model -/

lemma getPixel_ofFn {mode : Mode} {w h : Nat} {f : Nat → Nat → RGBA} {x y : Nat}
    (hx : x < w) (hy : y < h) :
    getPixel (Image.ofFn mode w h f) x y = f x y := by
  unfold getPixel Image.ofFn
  simp [List.getD_eq_getElem?_getD, List.getElem?_map, List.getElem?_range, hx, hy]

lemma getPixel_new {mode : Mode} {w h : Nat} {c : RGBA} {x y : Nat}
    (hx : x < w) (hy : y < h) :
    getPixel (Image.new mode w h c) x y = c :=
  getPixel_ofFn hx hy

lemma getRow_WF {img : Image} (hwf : WF img) {y : Nat} (hy : y < img.height) :
    ∃ row, img.pixels[y]? = some row ∧ row ∈ img.pixels ∧ row.length = img.width := by
  have hlen : y < img.pixels.length := by rw [hwf.1]; exact hy
  exact ⟨img.pixels[y], List.getElem?_eq_getElem hlen, List.getElem_mem hlen,
    hwf.2.1 _ (List.getElem_mem hlen)⟩

lemma getPixel_row {img : Image} {row : List RGBA} {x y : Nat}
    (h1 : img.pixels[y]? = some row) (hx : x < row.length) :
    getPixel img x y = row[x] := by
  unfold getPixel
  simp [List.getD_eq_getElem?_getD, h1, List.getElem?_eq_getElem hx]

lemma getPixel_prop {P : RGBA → Prop} {img : Image} (hwf : WF img) {x y : Nat}
    (hx : x < img.width) (hy : y < img.height)
    (hall : ∀ row ∈ img.pixels, ∀ p ∈ row, P p) :
    P (getPixel img x y) := by
  obtain ⟨row, h1, h2, h3⟩ := getRow_WF hwf hy
  have hx' : x < row.length := by rw [h3]; exact hx
  rw [getPixel_row h1 hx']
  exact hall row h2 _ (List.getElem_mem hx')

lemma getPixel_map {img : Image} {f : RGBA → RGBA} {m' : Mode} (hwf : WF img)
    {x y : Nat} (hx : x < img.width) (hy : y < img.height) :
    getPixel ⟨m', img.width, img.height, img.pixels.map (List.map f)⟩ x y
      = f (getPixel img x y) := by
  obtain ⟨row, h1, _, h3⟩ := getRow_WF hwf hy
  have hx' : x < row.length := by rw [h3]; exact hx
  rw [getPixel_row h1 hx']
  unfold getPixel
  simp [List.getD_eq_getElem?_getD, List.getElem?_map, h1,
    List.getElem?_eq_getElem hx']

lemma ofFn_const {mode : Mode} {w h : Nat} {f : Nat → Nat → RGBA} {c : RGBA}
    (hf : ∀ x y, x < w → y < h → f x y = c) :
    Image.ofFn mode w h f = Image.new mode w h c := by
  unfold Image.new Image.ofFn
  refine congrArg _ ?_
  refine List.map_congr_left (fun y hy => ?_)
  exact List.map_congr_left (fun x hx =>
    hf x y (List.mem_range.mp hx) (List.mem_range.mp hy))

lemma muldiv255_zero (a : Nat) : muldiv255 a 0 = 0 := by
  simp [muldiv255]

lemma muldiv255_of_255 : ∀ m, m ≤ 255 → muldiv255 255 m = m := by decide

lemma muldiv255_255_right : ∀ m, m ≤ 255 → muldiv255 m 255 = m := by decide

lemma blendc_white : ∀ m, m ≤ 255 → blendc m 255 255 = 255 := by decide

lemma blendc_mask_zero {a b : Nat} (hb : b ≤ 255) : blendc 0 a b = b := by
  unfold blendc
  rw [muldiv255_zero, Nat.sub_zero, muldiv255_255_right b hb]
  exact Nat.zero_add b

lemma mem_coords {img : Image} {x y : Nat} :
    (x, y) ∈ coords img ↔
      x < img.width ∧ y < img.height ∧
        nonzeroPix img.mode (getPixel img x y) = true := by
  unfold coords
  simp only [List.mem_flatMap, List.mem_filterMap, List.mem_range]
  constructor
  · rintro ⟨y', hy', x', hx', heq⟩
    split at heq
    · obtain ⟨rfl, rfl⟩ := Prod.mk.injEq .. ▸ Option.some.inj heq
      exact ⟨hx', hy', by assumption⟩
    · exact absurd heq (by simp)
  · rintro ⟨hx, hy, hnz⟩
    exact ⟨y, hy, x, hx, by rw [if_pos hnz]⟩

lemma coords_nil {img : Image}
    (h : ∀ x y, x < img.width → y < img.height →
      nonzeroPix img.mode (getPixel img x y) = false) :
    coords img = [] := by
  rw [List.eq_nil_iff_forall_not_mem]
  rintro ⟨x, y⟩ hmem
  obtain ⟨hx, hy, hnz⟩ := mem_coords.mp hmem
  rw [h x y hx hy] at hnz
  exact Bool.false_ne_true hnz

lemma trim_border_none (img : Image) :
    trim_border img none =
      (match getbbox (trimDiff img) with
       | some bbox => crop img bbox
       | none => img) :=
  rfl

lemma nonzeroPix_zero (mode : Mode) : nonzeroPix mode ⟨0, 0, 0, 0⟩ = false := by
  cases mode <;> rfl

lemma chDiff_self (a : Nat) : chDiff a a = 0 := by
  simp [chDiff]

lemma convertRGB_ofFn {m : Mode} {w h : Nat} {f : Nat → Nat → RGBA} :
    convertRGB (Image.ofFn m w h f) =
      Image.ofFn .RGB w h (fun x y => ⟨(f x y).r, (f x y).g, (f x y).b, 255⟩) := by
  simp [convertRGB, Image.ofFn, List.map_map, Function.comp]

lemma foldl_min_le_init : ∀ (xs : List Nat) (x : Nat), xs.foldl min x ≤ x := by
  intro xs
  induction xs with
  | nil => intro x; exact Nat.le_refl x
  | cons a t ih =>
    intro x
    simp only [List.foldl_cons]
    exact le_trans (ih (min x a)) (Nat.min_le_left x a)

lemma foldl_min_le_mem : ∀ (xs : List Nat) (x : Nat) {z : Nat},
    z ∈ xs → xs.foldl min x ≤ z := by
  intro xs
  induction xs with
  | nil => intro x z hz; cases hz
  | cons a t ih =>
    intro x z hz
    simp only [List.foldl_cons]
    rcases List.mem_cons.mp hz with rfl | hz'
    · exact le_trans (foldl_min_le_init t (min x z)) (Nat.min_le_right x z)
    · exact ih (min x a) hz'

lemma foldl_min_attained : ∀ (xs : List Nat) (x : Nat),
    xs.foldl min x = x ∨ xs.foldl min x ∈ xs := by
  intro xs
  induction xs with
  | nil => intro x; exact Or.inl rfl
  | cons a t ih =>
    intro x
    simp only [List.foldl_cons]
    rcases ih (min x a) with h | h
    · rcases min_choice x a with hm | hm
      · exact Or.inl (h.trans hm)
      · exact Or.inr (List.mem_cons.mpr (Or.inl (h.trans hm)))
    · exact Or.inr (List.mem_cons_of_mem a h)

lemma foldl_max_le_init : ∀ (xs : List Nat) (x : Nat), x ≤ xs.foldl max x := by
  intro xs
  induction xs with
  | nil => intro x; exact Nat.le_refl x
  | cons a t ih =>
    intro x
    simp only [List.foldl_cons]
    exact le_trans (Nat.le_max_left x a) (ih (max x a))

lemma foldl_max_le_mem : ∀ (xs : List Nat) (x : Nat) {z : Nat},
    z ∈ xs → z ≤ xs.foldl max x := by
  intro xs
  induction xs with
  | nil => intro x z hz; cases hz
  | cons a t ih =>
    intro x z hz
    simp only [List.foldl_cons]
    rcases List.mem_cons.mp hz with rfl | hz'
    · exact le_trans (Nat.le_max_right x z) (foldl_max_le_init t (max x z))
    · exact ih (max x a) hz'

lemma foldl_max_attained : ∀ (xs : List Nat) (x : Nat),
    xs.foldl max x = x ∨ xs.foldl max x ∈ xs := by
  intro xs
  induction xs with
  | nil => intro x; exact Or.inl rfl
  | cons a t ih =>
    intro x
    simp only [List.foldl_cons]
    rcases ih (max x a) with h | h
    · rcases max_choice x a with hm | hm
      · exact Or.inl (h.trans hm)
      · exact Or.inr (List.mem_cons.mpr (Or.inl (h.trans hm)))
    · exact Or.inr (List.mem_cons_of_mem a h)

lemma bboxOf_eq_some {cs : List (Nat × Nat)} {bb : BBox} (h : bboxOf cs = some bb) :
    (∀ p ∈ cs, bb.left ≤ p.1 ∧ p.1 < bb.right ∧ bb.top ≤ p.2 ∧ p.2 < bb.bottom) ∧
    (∃ p ∈ cs, p.1 = bb.left) ∧ (∃ p ∈ cs, p.1 + 1 = bb.right) ∧
    (∃ p ∈ cs, p.2 = bb.top) ∧ (∃ p ∈ cs, p.2 + 1 = bb.bottom) := by
  match cs with
  | [] => exact absurd h (by simp [bboxOf])
  | c :: cs' =>
    obtain rfl := (Option.some.inj h).symm
    simp only [minL, maxL] at *
    refine ⟨fun p hp => ?_, ?_, ?_, ?_, ?_⟩
    · rcases List.mem_cons.mp hp with rfl | hp'
      · exact ⟨foldl_min_le_init _ _, Nat.lt_succ_of_le (foldl_max_le_init _ _),
          foldl_min_le_init _ _, Nat.lt_succ_of_le (foldl_max_le_init _ _)⟩
      · have h1 := foldl_min_le_mem (cs'.map Prod.fst) c.1
          (List.mem_map_of_mem Prod.fst hp')
        have h2 := foldl_max_le_mem (cs'.map Prod.fst) c.1
          (List.mem_map_of_mem Prod.fst hp')
        have h3 := foldl_min_le_mem (cs'.map Prod.snd) c.2
          (List.mem_map_of_mem Prod.snd hp')
        have h4 := foldl_max_le_mem (cs'.map Prod.snd) c.2
          (List.mem_map_of_mem Prod.snd hp')
        exact ⟨h1, Nat.lt_succ_of_le h2, h3, Nat.lt_succ_of_le h4⟩
    · rcases foldl_min_attained (cs'.map Prod.fst) c.1 with h' | h'
      · exact ⟨c, List.mem_cons_self c cs', h'.symm⟩
      · obtain ⟨p, hp, hpe⟩ := List.mem_map.mp h'
        exact ⟨p, List.mem_cons_of_mem c hp, hpe⟩
    · rcases foldl_max_attained (cs'.map Prod.fst) c.1 with h' | h'
      · exact ⟨c, List.mem_cons_self c cs', by rw [h']⟩
      · obtain ⟨p, hp, hpe⟩ := List.mem_map.mp h'
        exact ⟨p, List.mem_cons_of_mem c hp, by rw [hpe]⟩
    · rcases foldl_min_attained (cs'.map Prod.snd) c.2 with h' | h'
      · exact ⟨c, List.mem_cons_self c cs', h'.symm⟩
      · obtain ⟨p, hp, hpe⟩ := List.mem_map.mp h'
        exact ⟨p, List.mem_cons_of_mem c hp, hpe⟩
    · rcases foldl_max_attained (cs'.map Prod.snd) c.2 with h' | h'
      · exact ⟨c, List.mem_cons_self c cs', by rw [h']⟩
      · obtain ⟨p, hp, hpe⟩ := List.mem_map.mp h'
        exact ⟨p, List.mem_cons_of_mem c hp, by rw [hpe]⟩

lemma bboxOf_eq_some_of {cs : List (Nat × Nat)} {l t r b : Nat}
    (hne : cs ≠ [])
    (hbound : ∀ p ∈ cs, l ≤ p.1 ∧ p.1 < r ∧ t ≤ p.2 ∧ p.2 < b)
    (hl : ∃ p ∈ cs, p.1 = l) (hr : ∃ p ∈ cs, p.1 + 1 = r)
    (ht : ∃ p ∈ cs, p.2 = t) (hb : ∃ p ∈ cs, p.2 + 1 = b) :
    bboxOf cs = some ⟨l, t, r, b⟩ := by
  match cs with
  | [] => exact absurd rfl hne
  | c :: cs' =>
    have memf : ∀ z ∈ cs'.map Prod.fst, ∃ p ∈ c :: cs', p.1 = z := by
      intro z hz
      obtain ⟨p, hp, hpe⟩ := List.mem_map.mp hz
      exact ⟨p, List.mem_cons_of_mem c hp, hpe⟩
    have mems : ∀ z ∈ cs'.map Prod.snd, ∃ p ∈ c :: cs', p.2 = z := by
      intro z hz
      obtain ⟨p, hp, hpe⟩ := List.mem_map.mp hz
      exact ⟨p, List.mem_cons_of_mem c hp, hpe⟩
    simp only [bboxOf, minL, maxL, Option.some.injEq, BBox.mk.injEq]
    have hminf : (cs'.map Prod.fst).foldl min c.1 = l := by
      have hle : (cs'.map Prod.fst).foldl min c.1 ≤ l := by
        obtain ⟨p, hp, hpe⟩ := hl
        rcases List.mem_cons.mp hp with rfl | hp'
        · rw [← hpe]; exact foldl_min_le_init _ _
        · rw [← hpe]; exact foldl_min_le_mem _ _ (List.mem_map_of_mem Prod.fst hp')
      have hge : l ≤ (cs'.map Prod.fst).foldl min c.1 := by
        rcases foldl_min_attained (cs'.map Prod.fst) c.1 with h' | h'
        · rw [h']; exact (hbound c (List.mem_cons_self c cs')).1
        · obtain ⟨p, hp, hpe⟩ := memf _ h'
          rw [← hpe]; exact (hbound p hp).1
      exact le_antisymm hle hge
    have hmins : (cs'.map Prod.snd).foldl min c.2 = t := by
      have hle : (cs'.map Prod.snd).foldl min c.2 ≤ t := by
        obtain ⟨p, hp, hpe⟩ := ht
        rcases List.mem_cons.mp hp with rfl | hp'
        · rw [← hpe]; exact foldl_min_le_init _ _
        · rw [← hpe]; exact foldl_min_le_mem _ _ (List.mem_map_of_mem Prod.snd hp')
      have hge : t ≤ (cs'.map Prod.snd).foldl min c.2 := by
        rcases foldl_min_attained (cs'.map Prod.snd) c.2 with h' | h'
        · rw [h']; exact (hbound c (List.mem_cons_self c cs')).2.2.1
        · obtain ⟨p, hp, hpe⟩ := mems _ h'
          rw [← hpe]; exact (hbound p hp).2.2.1
      exact le_antisymm hle hge
    have hmaxf : (cs'.map Prod.fst).foldl max c.1 + 1 = r := by
      have hle : r ≤ (cs'.map Prod.fst).foldl max c.1 + 1 := by
        obtain ⟨p, hp, hpe⟩ := hr
        rcases List.mem_cons.mp hp with rfl | hp'
        · rw [← hpe]; exact Nat.succ_le_succ (foldl_max_le_init _ _)
        · rw [← hpe]
          exact Nat.succ_le_succ
            (foldl_max_le_mem _ _ (List.mem_map_of_mem Prod.fst hp'))
      have hge : (cs'.map Prod.fst).foldl max c.1 + 1 ≤ r := by
        rcases foldl_max_attained (cs'.map Prod.fst) c.1 with h' | h'
        · rw [h']; exact (hbound c (List.mem_cons_self c cs')).2.1
        · obtain ⟨p, hp, hpe⟩ := memf _ h'
          rw [← hpe]; exact (hbound p hp).2.1
      exact le_antisymm hge hle
    have hmaxs : (cs'.map Prod.snd).foldl max c.2 + 1 = b := by
      have hle : b ≤ (cs'.map Prod.snd).foldl max c.2 + 1 := by
        obtain ⟨p, hp, hpe⟩ := hb
        rcases List.mem_cons.mp hp with rfl | hp'
        · rw [← hpe]; exact Nat.succ_le_succ (foldl_max_le_init _ _)
        · rw [← hpe]
          exact Nat.succ_le_succ
            (foldl_max_le_mem _ _ (List.mem_map_of_mem Prod.snd hp'))
      have hge : (cs'.map Prod.snd).foldl max c.2 + 1 ≤ b := by
        rcases foldl_max_attained (cs'.map Prod.snd) c.2 with h' | h'
        · rw [h']; exact (hbound c (List.mem_cons_self c cs')).2.2.2
        · obtain ⟨p, hp, hpe⟩ := mems _ h'
          rw [← hpe]; exact (hbound p hp).2.2.2
      exact le_antisymm hge hle
    exact ⟨hminf, hmins, hmaxf, hmaxs⟩

lemma crop_getPixel {img : Image} (hwf : WF img) {b : BBox}
    (hr : b.right ≤ img.width) (hb : b.bottom ≤ img.height)
    {u v : Nat} (hu : u < b.right - b.left) (hv : v < b.bottom - b.top) :
    getPixel (crop img b) u v = getPixel img (b.left + u) (b.top + v) := by
  have hyv : b.top + v < img.height := by omega
  obtain ⟨row, h1, h2, h3⟩ := getRow_WF hwf hyv
  have hxu : b.left + u < row.length := by omega
  rw [getPixel_row h1 hxu]
  have h1' : img.pixels[b.top + v]? = some row := h1
  unfold crop getPixel
  dsimp only
  have hrows :
      ((((img.pixels.drop b.top).take (b.bottom - b.top)).map (fun row =>
        (row.drop b.left).take (b.right - b.left)))[v]?) =
        some ((row.drop b.left).take (b.right - b.left)) := by
    rw [List.getElem?_map, List.getElem?_take]
    rw [if_pos hv, List.getElem?_drop, h1']
    rfl
  simp only [List.getD_eq_getElem?_getD]
  rw [hrows]
  simp only [Option.getD_some]
  rw [List.getElem?_take, if_pos hu, List.getElem?_drop,
    List.getElem?_eq_getElem hxu]
  rfl

lemma crop_WF {img : Image} (hwf : WF img) {b : BBox}
    (hr : b.right ≤ img.width) (hb : b.bottom ≤ img.height) : WF (crop img b) := by
  obtain ⟨hlen, hrow, hchan⟩ := hwf
  refine ⟨?_, ?_, ?_⟩
  · show (((img.pixels.drop b.top).take (b.bottom - b.top)).map _).length
        = b.bottom - b.top
    rw [List.length_map, List.length_take, List.length_drop, hlen]
    omega
  · intro row' hrow'
    obtain ⟨row, hrowmem, rfl⟩ := List.mem_map.mp hrow'
    have hmem : row ∈ img.pixels :=
      List.drop_subset b.top img.pixels (List.take_subset _ _ hrowmem)
    show ((row.drop b.left).take (b.right - b.left)).length = b.right - b.left
    rw [List.length_take, List.length_drop, hrow row hmem]
    omega
  · intro row' hrow' p hp
    obtain ⟨row, hrowmem, rfl⟩ := List.mem_map.mp hrow'
    have hmem : row ∈ img.pixels :=
      List.drop_subset b.top img.pixels (List.take_subset _ _ hrowmem)
    have hpmem : p ∈ row :=
      List.drop_subset b.left row (List.take_subset _ _ hp)
    exact hchan row hmem p hpmem

lemma crop_full {img : Image} (hwf : WF img) :
    crop img ⟨0, 0, img.width, img.height⟩ = img := by
  obtain ⟨hlen, hrow, _⟩ := hwf
  obtain ⟨m, w, h, px⟩ := img
  simp only at hlen hrow
  unfold crop
  simp only [Nat.sub_zero, List.drop_zero, Image.mk.injEq, true_and]
  rw [← hlen, List.take_length]
  exact (List.map_congr_left fun row hmem => by
    rw [← hrow row hmem, List.take_length]; rfl).trans (List.map_id px)

lemma getPixel_trimDiff {img : Image} {x y : Nat}
    (hx : x < img.width) (hy : y < img.height) :
    getPixel (trimDiff img) x y =
      ⟨chDiff (getPixel img x y).r (getpixel img (0, 0)).r,
       chDiff (getPixel img x y).g (getpixel img (0, 0)).g,
       chDiff (getPixel img x y).b (getpixel img (0, 0)).b,
       chDiff (getPixel img x y).a (getpixel img (0, 0)).a⟩ := by
  unfold trimDiff difference
  rw [getPixel_ofFn hx hy]
  dsimp only
  rw [getPixel_new hx hy]

/-! ## Lemmas about the binary64 model -/

lemma bitLenAux_zero : ∀ fuel, bitLenAux fuel 0 = 0 := by
  intro fuel
  cases fuel <;> rfl

lemma bitLenAux_spec : ∀ (fuel n : Nat), n ≤ fuel → n ≠ 0 →
    2 ^ (bitLenAux fuel n - 1) ≤ n ∧ n < 2 ^ (bitLenAux fuel n) := by
  intro fuel
  induction fuel with
  | zero => intro n hn h0; omega
  | succ f ih =>
    intro n hn h0
    simp only [bitLenAux, if_neg h0]
    by_cases h2 : n / 2 = 0
    · have hn1 : n = 1 := by omega
      subst hn1
      rw [h2, bitLenAux_zero]
      norm_num
    · have hn2 : n / 2 ≤ f := by omega
      obtain ⟨ih1, ih2⟩ := ih (n / 2) hn2 h2
      have hk1 : 1 ≤ bitLenAux f (n / 2) := by
        by_contra h'
        have hk0 : bitLenAux f (n / 2) = 0 := by omega
        rw [hk0, pow_zero] at ih2
        omega
      have hsplit : 2 ^ bitLenAux f (n / 2) = 2 * 2 ^ (bitLenAux f (n / 2) - 1) := by
        conv_lhs => rw [show bitLenAux f (n / 2) = (bitLenAux f (n / 2) - 1) + 1 from by omega]
        rw [pow_succ, Nat.mul_comm]
      constructor
      · simp only [Nat.add_sub_cancel]
        rw [hsplit]
        omega
      · rw [pow_succ]
        omega

lemma bitLen_spec (n : Nat) (h0 : n ≠ 0) :
    2 ^ (bitLen n - 1) ≤ n ∧ n < 2 ^ (bitLen n) :=
  bitLenAux_spec n n le_rfl h0

lemma rneNat_err (p q : Nat) (hq : 0 < q) :
    (p : ℚ) - (q : ℚ) / 2 ≤ (rneNat p q : ℚ) * q ∧
      (rneNat p q : ℚ) * q ≤ (p : ℚ) + (q : ℚ) / 2 := by
  have hr : p % q < q := Nat.mod_lt _ hq
  have key : (q : ℚ) * ((p / q : ℕ) : ℚ) + ((p % q : ℕ) : ℚ) = (p : ℚ) := by
    exact_mod_cast Nat.div_add_mod p q
  have hB0 : (0 : ℚ) ≤ ((p % q : ℕ) : ℚ) := Nat.cast_nonneg _
  have hrQ : ((p % q : ℕ) : ℚ) < (q : ℚ) := by exact_mod_cast hr
  unfold rneNat
  dsimp only
  split_ifs with h1 h2 h3
  · have h1' : 2 * ((p % q : ℕ) : ℚ) < (q : ℚ) := by exact_mod_cast h1
    constructor <;> nlinarith [key]
  · have h2' : (q : ℚ) < 2 * ((p % q : ℕ) : ℚ) := by exact_mod_cast h2
    push_cast
    constructor <;> nlinarith [key]
  · have h1' : (q : ℚ) ≤ 2 * ((p % q : ℕ) : ℚ) := by exact_mod_cast not_lt.mp h1
    have h2' : 2 * ((p % q : ℕ) : ℚ) ≤ (q : ℚ) := by exact_mod_cast not_lt.mp h2
    constructor <;> nlinarith [key]
  · have h1' : (q : ℚ) ≤ 2 * ((p % q : ℕ) : ℚ) := by exact_mod_cast not_lt.mp h1
    have h2' : 2 * ((p % q : ℕ) : ℚ) ≤ (q : ℚ) := by exact_mod_cast not_lt.mp h2
    push_cast
    constructor <;> nlinarith [key]

lemma split_pow (s : Int) :
    (2 : ℚ) ^ ((-s).toNat) * (2 : ℚ) ^ s = (2 : ℚ) ^ (s.toNat) := by
  rcases le_or_lt 0 s with hs | hs
  · have h1 : (-s).toNat = 0 := by omega
    rw [h1, pow_zero, one_mul, ← zpow_natCast (2 : ℚ) s.toNat]
    congr 1
    omega
  · have h1 : s.toNat = 0 := by omega
    have h2 : -s = ((-s).toNat : Int) := by omega
    rw [h1, pow_zero, ← zpow_natCast (2 : ℚ) ((-s).toNat), ← h2,
      ← zpow_add₀ (two_ne_zero) (-s) s, neg_add_cancel, zpow_zero]

lemma frac_id {a b : Nat} (hb : 0 < b) (s : Int) :
    ((a * 2 ^ (-s).toNat : ℕ) : ℚ) / ((b * 2 ^ s.toNat : ℕ) : ℚ) * (2 : ℚ) ^ s
      = (a : ℚ) / b := by
  have hsp := split_pow s
  have hbQ : ((b : ℕ) : ℚ) ≠ 0 := by positivity
  have hY : (0 : ℚ) < (2 : ℚ) ^ (s.toNat) := by positivity
  have hX : (0 : ℚ) < (2 : ℚ) ^ ((-s).toNat) := by positivity
  push_cast
  rw [div_mul_eq_mul_div, div_eq_div_iff (by positivity) (by positivity)]
  linear_combination (a : ℚ) * (b : ℚ) * hsp

lemma flFrac_err {a b : Nat} (ha : 0 < a) (hb : 0 < b) (hab : b ≤ a * 2 ^ 200) :
    ((a : ℚ) / b) * (1 - 1 / 2 ^ 53) ≤ dyVal (flFrac a b) ∧
      dyVal (flFrac a b) ≤ ((a : ℚ) / b) * (1 + 1 / 2 ^ 53) := by
  have ha0 : a ≠ 0 := by omega
  have hbQ : (0 : ℚ) < (b : ℚ) := by exact_mod_cast hb
  have haQ : (0 : ℚ) < (a : ℚ) := by exact_mod_cast ha
  have hL1 : 1 ≤ a * 2 ^ 200 / b := (Nat.one_le_div_iff hb).mpr hab
  obtain ⟨hLlo, hLhi⟩ := bitLen_spec (a * 2 ^ 200 / b) (by omega)
  unfold dyVal flFrac
  rw [if_neg ha0]
  dsimp only
  set len := bitLen (a * 2 ^ 200 / b) with hlendef
  set s : Int := (len : Int) - 253 with hsdef
  set p' := a * 2 ^ (-s).toNat with hpdef
  set q' := b * 2 ^ s.toNat with hqdef
  have hlen1 : 1 ≤ len := by
    by_contra h'
    have h0 : len = 0 := by omega
    rw [h0, pow_zero] at hLhi
    omega
  have hLQ : ((a * 2 ^ 200 / b : ℕ) : ℚ) ≤ (a : ℚ) * 2 ^ 200 / b := by
    rw [le_div_iff hbQ]
    exact_mod_cast Nat.div_mul_le_self (a * 2 ^ 200) b
  have hx_lo : (2 : ℚ) ^ ((len : Int) - 201) ≤ (a : ℚ) / b := by
    have h2 : (2 : ℚ) ^ ((len : Int) - 1) ≤ (a : ℚ) * 2 ^ 200 / b := by
      calc (2 : ℚ) ^ ((len : Int) - 1) = ((2 ^ (len - 1) : ℕ) : ℚ) := by
            push_cast
            rw [← zpow_natCast (2 : ℚ) (len - 1)]
            congr 1
            omega
      _ ≤ ((a * 2 ^ 200 / b : ℕ) : ℚ) := by exact_mod_cast hLlo
      _ ≤ (a : ℚ) * 2 ^ 200 / b := hLQ
    have h200pos : (0 : ℚ) < (2 : ℚ) ^ ((200 : ℕ) : Int) := by positivity
    have hdiv := (div_le_div_right h200pos).mpr h2
    have hR : ((a : ℚ) * 2 ^ 200 / b) / (2 : ℚ) ^ ((200 : ℕ) : Int) = (a : ℚ) / b := by
      rw [zpow_natCast]
      field_simp
      ring
    rw [hR, ← zpow_sub₀ (two_ne_zero) ((len : Int) - 1) ((200 : ℕ) : Int)] at hdiv
    have he : (len : Int) - 201 = (len : Int) - 1 - ((200 : ℕ) : Int) := by
      push_cast
      ring
    rw [he]
    exact hdiv
  have hqpos2 : 0 < q' := by positivity
  have hqQ2 : (0 : ℚ) < ((q' : ℕ) : ℚ) := by exact_mod_cast hqpos2
  have hqne2 : ((q' : ℕ) : ℚ) ≠ 0 := ne_of_gt hqQ2
  obtain ⟨he1, he2⟩ := rneNat_err p' q' hqpos2
  have h2s : (0 : ℚ) < (2 : ℚ) ^ s := zpow_pos (by norm_num) s
  have hfrac : ((p' : ℕ) : ℚ) / ((q' : ℕ) : ℚ) * (2 : ℚ) ^ s = (a : ℚ) / b := by
    rw [hpdef, hqdef]
    exact frac_id hb s
  have hup0 : (rneNat p' q' : ℚ) * 2 ^ s ≤ (a : ℚ) / b + (2 : ℚ) ^ s / 2 := by
    have hdiv := (div_le_div_right hqQ2).mpr he2
    have hL : (rneNat p' q' : ℚ) * (q' : ℚ) / (q' : ℚ) = (rneNat p' q' : ℚ) := by
      field_simp
    have hR : (((p' : ℕ) : ℚ) + ((q' : ℕ) : ℚ) / 2) / ((q' : ℕ) : ℚ)
        = ((p' : ℕ) : ℚ) / ((q' : ℕ) : ℚ) + 1 / 2 := by
      rw [add_div]
      congr 1
      rw [div_div, mul_comm, ← div_div, div_self hqne2]
    rw [hL, hR] at hdiv
    calc (rneNat p' q' : ℚ) * 2 ^ s
        ≤ (((p' : ℕ) : ℚ) / ((q' : ℕ) : ℚ) + 1 / 2) * 2 ^ s :=
          mul_le_mul_of_nonneg_right hdiv (le_of_lt h2s)
    _ = ((p' : ℕ) : ℚ) / ((q' : ℕ) : ℚ) * 2 ^ s + 2 ^ s / 2 := by ring
    _ = (a : ℚ) / b + (2 : ℚ) ^ s / 2 := by rw [hfrac]
  have hlo0 : (a : ℚ) / b - (2 : ℚ) ^ s / 2 ≤ (rneNat p' q' : ℚ) * 2 ^ s := by
    have hdiv := (div_le_div_right hqQ2).mpr he1
    have hL : (rneNat p' q' : ℚ) * (q' : ℚ) / (q' : ℚ) = (rneNat p' q' : ℚ) := by
      field_simp
    have hR : (((p' : ℕ) : ℚ) - ((q' : ℕ) : ℚ) / 2) / ((q' : ℕ) : ℚ)
        = ((p' : ℕ) : ℚ) / ((q' : ℕ) : ℚ) - 1 / 2 := by
      rw [sub_div]
      congr 1
      rw [div_div, mul_comm, ← div_div, div_self hqne2]
    rw [hL, hR] at hdiv
    calc (a : ℚ) / b - (2 : ℚ) ^ s / 2
        = (((p' : ℕ) : ℚ) / ((q' : ℕ) : ℚ) - 1 / 2) * 2 ^ s := by
          rw [← hfrac]
          ring
    _ ≤ (rneNat p' q' : ℚ) * 2 ^ s :=
          mul_le_mul_of_nonneg_right hdiv (le_of_lt h2s)
  have herr : (2 : ℚ) ^ s / 2 ≤ ((a : ℚ) / b) / 2 ^ 53 := by
    have e1 : (2 : ℚ) ^ s / 2 = (2 : ℚ) ^ (s - 1) := by
      rw [zpow_sub_one₀ (two_ne_zero)]
      ring
    have e2 : (2 : ℚ) ^ ((len : Int) - 201) / 2 ^ 53 = (2 : ℚ) ^ (s - 1) := by
      rw [show ((2 : ℚ) ^ (53 : ℕ)) = (2 : ℚ) ^ ((53 : ℕ) : Int) from
        (zpow_natCast 2 53).symm]
      rw [← zpow_sub₀ (two_ne_zero)]
      congr 1
      rw [hsdef]
      push_cast
      ring
    rw [e1, ← e2]
    exact (div_le_div_right (by norm_num)).mpr hx_lo
  constructor
  · calc ((a : ℚ) / b) * (1 - 1 / 2 ^ 53)
        = (a : ℚ) / b - ((a : ℚ) / b) / 2 ^ 53 := by ring
    _ ≤ (a : ℚ) / b - (2 : ℚ) ^ s / 2 := by linarith [herr]
    _ ≤ (rneNat p' q' : ℚ) * 2 ^ s := hlo0
  · calc (rneNat p' q' : ℚ) * 2 ^ s
        ≤ (a : ℚ) / b + (2 : ℚ) ^ s / 2 := hup0
    _ ≤ (a : ℚ) / b + ((a : ℚ) / b) / 2 ^ 53 := by linarith [herr]
    _ = ((a : ℚ) / b) * (1 + 1 / 2 ^ 53) := by ring

lemma flFrac_lt_one {a b : Nat} (ha : 0 < a) (hb : 0 < b) (hab : b ≤ a * 2 ^ 200)
    (hx : (a : ℚ) / b ≤ 1 - 1 / 2 ^ 52) : dyVal (flFrac a b) < 1 := by
  obtain ⟨_, hup⟩ := flFrac_err ha hb hab
  calc dyVal (flFrac a b) ≤ ((a : ℚ) / b) * (1 + 1 / 2 ^ 53) := hup
  _ ≤ (1 - 1 / 2 ^ 52) * (1 + 1 / 2 ^ 53) :=
        mul_le_mul_of_nonneg_right hx (by norm_num)
  _ < 1 := by norm_num

lemma flFrac_zero (b : Nat) : flFrac 0 b = (0, 0) := by
  unfold flFrac
  rw [if_pos rfl]

lemma truncDy_eq_zero {p : Nat × Int} (h : dyVal p < 1) : truncDy p = 0 := by
  unfold dyVal at h
  unfold truncDy
  rcases le_or_lt 0 p.2 with hs | hs
  · rw [if_pos hs]
    have h2 : (1 : ℚ) ≤ (2 : ℚ) ^ p.2 := by
      rw [show p.2 = ((p.2.toNat : ℕ) : Int) from by omega, zpow_natCast]
      exact one_le_pow₀ (by norm_num)
    have hp1 : (p.1 : ℚ) < 1 := by nlinarith [Nat.cast_nonneg (α := ℚ) p.1]
    have hz : p.1 = 0 := Nat.cast_lt_one.mp hp1
    rw [hz, Nat.zero_mul]
  · rw [if_neg (not_le.mpr hs)]
    apply Nat.div_eq_of_lt
    set k := (-p.2).toNat with hkdef
    have hk : p.2 = -(k : Int) := by omega
    have hz : (2 : ℚ) ^ p.2 = ((2 : ℚ) ^ k)⁻¹ := by
      rw [hk, zpow_neg, zpow_natCast]
    rw [hz, ← div_eq_mul_inv] at h
    have hpowQ : (0 : ℚ) < (2 : ℚ) ^ k := by positivity
    have hlt : (p.1 : ℚ) < (2 : ℚ) ^ k := (div_lt_one hpowQ).mp h
    have hlt2 : (p.1 : ℚ) < ((2 ^ k : ℕ) : ℚ) := by
      push_cast
      exact hlt
    exact_mod_cast hlt2

/-! ## The claims -/

/-- Claim C1: the composed output image has exactly the configured canvas
dimensions, and the subject is pasted at per-axis offsets
`(canvas_dim - subject_dim) // 2` with floor division, negative (with the
paste clipping) whenever the subject exceeds the canvas on that axis. -/
theorem claim_C1 (s : Image) (fs : Nat × Nat) (bg : Color3) :
    (composeOnCanvas s fs bg).width = fs.1 ∧
    (composeOnCanvas s fs bg).height = fs.2 ∧
    pasteOffset fs.1 s.width = ((fs.1 : Int) - (s.width : Int)).fdiv 2 ∧
    (fs.1 < s.width → pasteOffset fs.1 s.width < 0) ∧
    (fs.2 < s.height → pasteOffset fs.2 s.height < 0) := by
  refine ⟨rfl, rfl, rfl, fun h => ?_, fun h => ?_⟩ <;>
    · unfold pasteOffset
      rw [Int.fdiv_eq_ediv _ (by norm_num)]
      omega

/-- Claim C1, witness: a 1200×600 subject on a 1000×1000 canvas still
yields a 1000×1000 output, with a negative horizontal offset. -/
theorem claim_C1_witness :
    (composeOnCanvas imgC1 (1000, 1000) ⟨255, 255, 255⟩).width = 1000 ∧
    (composeOnCanvas imgC1 (1000, 1000) ⟨255, 255, 255⟩).height = 1000 ∧
    pasteOffset 1000 imgC1.width < 0 :=
  ⟨(claim_C1 imgC1 (1000, 1000) ⟨255, 255, 255⟩).1,
   (claim_C1 imgC1 (1000, 1000) ⟨255, 255, 255⟩).2.1,
   (claim_C1 imgC1 (1000, 1000) ⟨255, 255, 255⟩).2.2.2.1 (by decide)⟩

/-- Claim C2, counterexample: for the 25×3 image at `max_size = 500` the
code returns an image of height `int(500 / (25/3)) = 59`, computed in
double precision, while the exact same-ratio scaling rounded down is
`500·3 // 25 = 60`; the non-controlled dimension is NOT always the floor
of the exact scaling. -/
theorem claim_C2_cex :
    resize_image imgC2 500 = .ok (resampleCore imgC2 500 59) ∧
    (resampleCore imgC2 500 59).height ≠ 500 * imgC2.height / imgC2.width := by
  constructor
  · unfold resize_image resampleTo
    dsimp only
    rw [show resizeDims imgC2.width imgC2.height 500 = (500, 59) from by decide]
    rfl
  · decide

/-- Claim C2, amended: the controlled side is exact — whenever the
resizer returns an image, its width equals `max_size` when `w > h` and
its height equals `max_size` otherwise (including `w = h`) — while the
non-controlled side is the double-precision scaled value truncated to an
integer, which can fall one below the exact floor (and when it truncates
to zero the resize call raises instead of returning, see C10); on the
spec's own examples the exact values do hold: 800×600 at 500 gives
(500, 375) and 1000×1000 at 500 gives (500, 500). -/
theorem claim_C2 (img : Image) (ms : Nat) (out : Image)
    (hok : resize_image img ms = .ok out) :
    ((img.height < img.width → out.width = ms) ∧
     (¬ img.height < img.width → out.height = ms)) ∧
    resizeDims 800 600 500 = (500, 375) ∧
    resizeDims 1000 1000 500 = (500, 500) := by
  unfold resize_image resampleTo at hok
  dsimp only at hok
  split_ifs at hok with hcond
  obtain rfl := (Except.ok.inj hok).symm
  refine ⟨⟨fun h => ?_, fun h => ?_⟩, by decide, by decide⟩
  · show (resizeDims img.width img.height ms).1 = ms
    unfold resizeDims
    rw [if_pos h]
  · show (resizeDims img.width img.height ms).2 = ms
    unfold resizeDims
    rw [if_neg h]

/-- Claim C2, witness: the amended claim at the spec's 800×600 example,
where the resize succeeds and returns a 500-wide image. -/
theorem claim_C2_witness :
    (resampleCore imgC2w 500 375).width = 500 ∧
    resizeDims 800 600 500 = (500, 375) := by
  have hok : resize_image imgC2w 500 = .ok (resampleCore imgC2w 500 375) := by
    unfold resize_image resampleTo
    dsimp only
    rw [show resizeDims imgC2w.width imgC2w.height 500 = (500, 375) from by decide]
    rfl
  have h := claim_C2 imgC2w 500 (resampleCore imgC2w 500 375) hok
  exact ⟨h.1.1 (by decide), h.2.1⟩

/-- Claim C3: grey/near-white suppression is a per-pixel independent
test; a pixel with all of red, green, blue at or above the threshold has
its RGB channels overwritten with the replacement color and its alpha
kept; any other pixel is left completely unchanged; dimensions and mode
are preserved. -/
theorem claim_C3 (img : Image) (t rep : Color3) (out : Image)
    (hmode : img.mode = .RGBA) (hwf : WF img)
    (hok : remove_grey_background img t rep = .ok out) :
    out.mode = img.mode ∧ out.width = img.width ∧ out.height = img.height ∧
    ∀ x y, x < img.width → y < img.height →
      getPixel out x y =
        (if t.r ≤ (getPixel img x y).r ∧ t.g ≤ (getPixel img x y).g ∧
            t.b ≤ (getPixel img x y).b
         then ⟨rep.r, rep.g, rep.b, (getPixel img x y).a⟩
         else getPixel img x y) := by
  unfold remove_grey_background at hok
  rw [if_pos hmode] at hok
  obtain rfl := (Except.ok.inj hok).symm
  exact ⟨rfl, rfl, rfl, fun x y hx hy => getPixel_map hwf hx hy⟩

/-- Claim C3, witness: on a 2×1 image the above-threshold pixel is
whitened keeping alpha 7, the below-threshold pixel is untouched. -/
theorem claim_C3_witness :
    getPixel outC3 0 0 = ⟨255, 255, 255, 7⟩ ∧
    getPixel outC3 1 0 = ⟨10, 20, 30, 40⟩ := by
  have h := claim_C3 imgC3 ⟨200, 200, 200⟩ ⟨255, 255, 255⟩ outC3 rfl
    (by decide) rfl
  refine ⟨?_, ?_⟩
  · rw [h.2.2.2 0 0 (by decide) (by decide)]; decide
  · rw [h.2.2.2 1 0 (by decide) (by decide)]; decide

/-- Claim C4: the trimmer samples the border color from the top-left
pixel when none is supplied, crops to the bounding box of the non-zero
difference when one exists, and returns the image unmodified when none
exists; in particular a uniform single-color image is returned
unchanged. -/
theorem claim_C4 (img : Image) (c : RGBA) (hwf : WF img)
    (hw : 0 < img.width) (hh : 0 < img.height) :
    (∀ b, getbbox (trimDiff img) = some b → trim_border img none = crop img b) ∧
    (getbbox (trimDiff img) = none → trim_border img none = img) ∧
    ((∀ row ∈ img.pixels, ∀ p ∈ row, p = c) → trim_border img none = img) := by
  refine ⟨fun b hb => ?_, fun hb => ?_, fun huni => ?_⟩
  · rw [trim_border_none, hb]
  · rw [trim_border_none, hb]
  · have hc : coords (trimDiff img) = [] := by
      refine coords_nil (fun x y hx hy => ?_)
      have hx' : x < img.width := hx
      have hy' : y < img.height := hy
      have hp : getPixel img x y = c := getPixel_prop hwf hx' hy' huni
      have h0 : getPixel img 0 0 = c := getPixel_prop hwf hw hh huni
      have hval : getPixel (trimDiff img) x y = ⟨0, 0, 0, 0⟩ := by
        unfold trimDiff difference
        rw [getPixel_ofFn hx' hy']
        dsimp only
        rw [getPixel_new hx' hy']
        dsimp only [getpixel]
        rw [hp, h0]
        simp [chDiff_self]
      rw [hval, nonzeroPix_zero]
    have hnone : getbbox (trimDiff img) = none := by
      unfold getbbox
      rw [hc]
      rfl
    rw [trim_border_none, hnone]

/-- Claim C4, witness: trimming a uniform 3×2 image returns it
unchanged. -/
theorem claim_C4_witness : trim_border imgC4 none = imgC4 :=
  (claim_C4 imgC4 ⟨5, 6, 7, 8⟩ (by decide) (by decide) (by decide)).2.2 (by decide)

/-- Claim C5: the per-image driver catches every failure of any stage
(the whole fallible pipeline body is `runImage`), emits a diagnostic
naming the failed input path and the failure reason, and returns
normally; the folder driver processes every extension-matching file,
one result per file, regardless of individual failures. -/
theorem claim_C5 (input_path output_path : String) (load : Except String Image)
    (save : Image → Except String Unit) (ms : Nat) (fs : Nat × Nat) (bg : Color3)
    (input_folder output_folder : String)
    (files : List (String × Except String Image)) :
    (∀ e, runImage load save output_path ms fs bg = .error e →
      process_image input_path output_path load save ms fs bg =
        (none, "Error processing " ++ input_path ++ ": " ++ e)) ∧
    (∀ final savedPath,
      runImage load save output_path ms fs bg = .ok (final, savedPath) →
      process_image input_path output_path load save ms fs bg =
        (some final, "Processed and saved: " ++ savedPath)) ∧
    (process_folder input_folder output_folder files save ms fs bg).length =
      (files.filter (fun f => hasImageExt f.1)).length := by
  refine ⟨fun e he => ?_, fun final savedPath hok => ?_, ?_⟩
  · unfold process_image
    rw [he]
  · unfold process_image
    rw [hok]
  · unfold process_folder
    rw [List.length_map]

/-- Claim C5, witness: a decode failure produces the diagnostic with the
input path and reason, and a batch with one matching and one
non-matching file yields exactly one result. -/
theorem claim_C5_witness :
    process_image "in/a.png" "out/a.png" (Except.error "cannot identify image file")
        (fun _ => Except.ok ()) 500 (1000, 1000) ⟨255, 255, 255⟩ =
      (none, "Error processing in/a.png: cannot identify image file") ∧
    (process_folder "in" "out"
        [("a.png", Except.error "bad"), ("b.txt", Except.ok imgC5)]
        (fun _ => Except.ok ()) 500 (1000, 1000) ⟨255, 255, 255⟩).length = 1 := by
  constructor
  · exact (claim_C5 "in/a.png" "out/a.png" (Except.error "cannot identify image file")
      (fun _ => Except.ok ()) 500 (1000, 1000) ⟨255, 255, 255⟩ "in" "out" []).1
      "cannot identify image file" rfl
  · rw [(claim_C5 "in/a.png" "out/a.png" (Except.error "e") (fun _ => Except.ok ())
      500 (1000, 1000) ⟨255, 255, 255⟩ "in" "out"
      [("a.png", Except.error "bad"), ("b.txt", Except.ok imgC5)]).2.2]
    rfl

/-- Claim C9, counterexample: the claim says the normalizer raises no
error regardless of the input's color mode, but on a 3-channel RGB-mode
image the four-way channel unpacking in `remove_grey_background` fails,
so normalization itself raises. -/
theorem claim_C9_cex :
    ensure_pure_white_background imgC9 ⟨255, 255, 255⟩ =
      .error "not enough values to unpack" := rfl

/-- Claim C9, amended: for RGBA-mode inputs — which is what the driver
always supplies, converting every loaded image to RGBA first — the
normalizer raises no error; only decode errors from the upstream loader
surface, and the driver catches them. -/
theorem claim_C9 (img : Image) (bg : Color3) (hmode : img.mode = .RGBA) :
    exceptOk (ensure_pure_white_background img bg) = true := by
  unfold ensure_pure_white_background remove_grey_background
  rw [if_pos hmode]
  dsimp only
  split <;> rfl

/-- Claim C9, witness: the normalizer succeeds on an RGBA input. -/
theorem claim_C9_witness :
    exceptOk (ensure_pure_white_background imgC9w ⟨255, 255, 255⟩) = true :=
  claim_C9 imgC9w ⟨255, 255, 255⟩ rfl

/-- Claim C6: when every pixel satisfies the grey/white threshold test,
the normalizer output (with its default white background) is the uniform
`replace_color` image in 3-channel RGB mode with the alpha dropped. -/
theorem claim_C6 (img : Image) (hmode : img.mode = .RGBA) (hwf : WF img)
    (hall : ∀ row ∈ img.pixels, ∀ p ∈ row, 200 ≤ p.r ∧ 200 ≤ p.g ∧ 200 ≤ p.b) :
    ensure_pure_white_background img ⟨255, 255, 255⟩ =
      .ok (Image.new .RGB img.width img.height ⟨255, 255, 255, 255⟩) := by
  unfold ensure_pure_white_background remove_grey_background
  rw [if_pos hmode]
  dsimp only
  rw [if_pos hmode]
  unfold compositeAlpha
  dsimp only
  rw [convertRGB_ofFn]
  refine congrArg Except.ok (ofFn_const fun x y hx hy => ?_)
  have h200 : 200 ≤ (getPixel img x y).r ∧ 200 ≤ (getPixel img x y).g ∧
      200 ≤ (getPixel img x y).b := getPixel_prop hwf hx hy hall
  have ha : (getPixel img x y).a ≤ 255 := (getPixel_prop hwf hx hy hwf.2.2).2.2.2
  rw [getPixel_map hwf hx hy, getPixel_new hx hy]
  dsimp only
  rw [if_pos h200]
  dsimp only
  rw [blendc_white _ ha]

/-- Claim C6, witness: an all-grey RGBA image (with varying alpha)
normalizes to the uniform white RGB image. -/
theorem claim_C6_witness :
    ensure_pure_white_background imgC6 ⟨255, 255, 255⟩ =
      .ok (Image.new .RGB 1 2 ⟨255, 255, 255, 255⟩) :=
  claim_C6 imgC6 rfl (by decide) (by decide)

/-- Claim C7: an RGBA input that is fully transparent (alpha 0 at every
pixel) normalizes to the uniform `background_color` image: compositing
replaces the invisible foreground entirely by the solid background. -/
theorem claim_C7 (img : Image) (bg : Color3) (hmode : img.mode = .RGBA)
    (hwf : WF img) (hbr : bg.r ≤ 255) (hbg : bg.g ≤ 255) (hbb : bg.b ≤ 255)
    (hall : ∀ row ∈ img.pixels, ∀ p ∈ row, p.a = 0) :
    ensure_pure_white_background img bg =
      .ok (Image.new .RGB img.width img.height ⟨bg.r, bg.g, bg.b, 255⟩) := by
  unfold ensure_pure_white_background remove_grey_background
  rw [if_pos hmode]
  dsimp only
  rw [if_pos hmode]
  unfold compositeAlpha
  dsimp only
  rw [convertRGB_ofFn]
  refine congrArg Except.ok (ofFn_const fun x y hx hy => ?_)
  have h0 : (getPixel img x y).a = 0 := getPixel_prop hwf hx hy hall
  rw [getPixel_map hwf hx hy, getPixel_new hx hy]
  dsimp only
  have hasel :
      (if 200 ≤ (getPixel img x y).r ∧ 200 ≤ (getPixel img x y).g ∧
          200 ≤ (getPixel img x y).b
       then (⟨255, 255, 255, (getPixel img x y).a⟩ : RGBA)
       else getPixel img x y).a = 0 := by
    split
    · exact h0
    · exact h0
  rw [hasel, blendc_mask_zero hbr, blendc_mask_zero hbg, blendc_mask_zero hbb]

/-- Claim C7, witness: a fully transparent 2×1 image normalizes to the
uniform background color (here a non-white background). -/
theorem claim_C7_witness :
    ensure_pure_white_background imgC7 ⟨10, 200, 30⟩ =
      .ok (Image.new .RGB 2 1 ⟨10, 200, 30, 255⟩) :=
  claim_C7 imgC7 ⟨10, 200, 30⟩ rfl (by decide) (by decide) (by decide) (by decide)
    (by decide)

/-- Claim C8, counterexample: the trimmer is not idempotent on every
image with a uniform border.  `imgC8` has a uniform white border; its
first trim crops to the 2×2 block whose top-left pixel is red, so the
second trim samples red and crops again to the single blue pixel. -/
theorem claim_C8_cex :
    trim_border (trim_border imgC8 none) none ≠ trim_border imgC8 none := by
  decide

/-- Claim C8, amended: `trim(trim(img)) = trim(img)` holds provided the
top-left pixel of the once-trimmed image still equals the border color
sampled from the original image (in particular whenever the cropped
bounding box keeps the border color at its corner, and trivially when no
bounding box exists); without that proviso a second trim can crop
further. -/
theorem claim_C8 (img : Image) (hwf : WF img)
    (hcorner : getpixel (trim_border img none) (0, 0) = getpixel img (0, 0)) :
    trim_border (trim_border img none) none = trim_border img none := by
  rcases hB : getbbox (trimDiff img) with _ | b
  · have hT : trim_border img none = img := by rw [trim_border_none, hB]
    rw [hT]
    exact hT
  · have hT : trim_border img none = crop img b := by rw [trim_border_none, hB]
    rw [hT] at hcorner ⊢
    have hB' : bboxOf (coords (trimDiff img)) = some b := hB
    obtain ⟨hbound, hlat, hrat, htat, hbat⟩ := bboxOf_eq_some hB'
    have hdims : ∀ p ∈ coords (trimDiff img),
        p.1 < img.width ∧ p.2 < img.height := by
      rintro ⟨x, y⟩ hp
      obtain ⟨h1, h2, _⟩ := mem_coords.mp hp
      exact ⟨h1, h2⟩
    have hrw : b.right ≤ img.width := by
      obtain ⟨p, hp, hpe⟩ := hrat
      have := (hdims p hp).1
      omega
    have hbh : b.bottom ≤ img.height := by
      obtain ⟨p, hp, hpe⟩ := hbat
      have := (hdims p hp).2
      omega
    have hlr : b.left < b.right := by
      obtain ⟨p, hp, hpe⟩ := hlat
      have h' := hbound p hp
      omega
    have htb : b.top < b.bottom := by
      obtain ⟨p, hp, hpe⟩ := htat
      have h' := hbound p hp
      omega
    have hwfT : WF (crop img b) := crop_WF hwf hrw hbh
    have hpix : ∀ u v, u < b.right - b.left → v < b.bottom - b.top →
        getPixel (trimDiff (crop img b)) u v =
          getPixel (trimDiff img) (b.left + u) (b.top + v) := by
      intro u v hu hv
      have hx : b.left + u < img.width := by omega
      have hy : b.top + v < img.height := by omega
      rw [getPixel_trimDiff hu hv, getPixel_trimDiff hx hy,
        crop_getPixel hwf hrw hbh hu hv, hcorner]
    have hmemof : ∀ p ∈ coords (trimDiff img),
        (p.1 - b.left, p.2 - b.top) ∈ coords (trimDiff (crop img b)) := by
      intro p hp
      obtain ⟨hx, hy, hnz⟩ := mem_coords.mp hp
      have hb1 := hbound p hp
      refine mem_coords.mpr ⟨?_, ?_, ?_⟩
      · show p.1 - b.left < b.right - b.left
        omega
      · show p.2 - b.top < b.bottom - b.top
        omega
      · have e1 : b.left + (p.1 - b.left) = p.1 := by omega
        have e2 : b.top + (p.2 - b.top) = p.2 := by omega
        rw [hpix _ _ (by omega) (by omega), e1, e2]
        exact hnz
    obtain ⟨p0, hp0, hp0e⟩ := hlat
    obtain ⟨p1, hp1, hp1e⟩ := hrat
    obtain ⟨p2, hp2, hp2e⟩ := htat
    obtain ⟨p3, hp3, hp3e⟩ := hbat
    have hb0 := hbound p0 hp0
    have hb1 := hbound p1 hp1
    have hb2 := hbound p2 hp2
    have hb3 := hbound p3 hp3
    have hbT : getbbox (trimDiff (crop img b)) =
        some ⟨0, 0, b.right - b.left, b.bottom - b.top⟩ := by
      refine bboxOf_eq_some_of (List.ne_nil_of_mem (hmemof p0 hp0)) ?_ ?_ ?_ ?_ ?_
      · rintro ⟨u, v⟩ hq
        obtain ⟨h1, h2, _⟩ := mem_coords.mp hq
        exact ⟨Nat.zero_le _, h1, Nat.zero_le _, h2⟩
      · exact ⟨_, hmemof p0 hp0, by omega⟩
      · exact ⟨_, hmemof p1 hp1, by omega⟩
      · exact ⟨_, hmemof p2 hp2, by omega⟩
      · exact ⟨_, hmemof p3 hp3, by omega⟩
    rw [trim_border_none, hbT]
    exact crop_full hwfT

/-- Claim C8, witness: an L-shaped subject on a white border keeps the
border color at the corner of its bounding box, and there the double
trim equals the single trim. -/
theorem claim_C8_witness :
    trim_border (trim_border imgC8w none) none = trim_border imgC8w none :=
  claim_C8 imgC8w (by decide) (by decide)

/-- In the `height ≥ width` branch with `width · max_size < height`
(dimensions bounded by `2^32`), the computed non-controlled width
`int(max_size * aspect_ratio)` truncates to 0; the binary64 rounding
error, bounded relatively by `2^-53` per operation, cannot push the
value to 1. -/
lemma resizeDims_width_zero (img : Image) (ms : Nat) (hw : 0 < img.width)
    (hwh : img.width ≤ img.height) (hhb : img.height ≤ 2 ^ 32)
    (hsmall : img.width * ms < img.height) :
    (resizeDims img.width img.height ms).1 = 0 := by
  have hh0 : 0 < img.height := by omega
  show (resizeDims img.width img.height ms).1 = 0
  unfold resizeDims
  dsimp only
  rw [if_neg (by omega : ¬ img.height < img.width)]
  dsimp only
  by_cases hms : ms = 0
  · subst hms
    simp only [Nat.zero_mul]
    rw [flFrac_zero]
    rfl
  · have hms1 : 1 ≤ ms := by omega
    have hab1 : img.height ≤ img.width * 2 ^ 200 := by
      have h1 : (2 : ℕ) ^ 32 ≤ 2 ^ 200 := Nat.pow_le_pow_right (by norm_num) (by norm_num)
      calc img.height ≤ 2 ^ 200 := le_trans hhb h1
      _ = 1 * 2 ^ 200 := (Nat.one_mul _).symm
      _ ≤ img.width * 2 ^ 200 := Nat.mul_le_mul_right _ hw
    obtain ⟨hlo, hup⟩ := flFrac_err hw hh0 hab1
    set m := (flFrac img.width img.height).1 with hmdef
    set s := (flFrac img.width img.height).2 with hsdef
    have hwQ : (0 : ℚ) < (img.width : ℚ) := by exact_mod_cast hw
    have hhQ : (0 : ℚ) < (img.height : ℚ) := by exact_mod_cast hh0
    have hxpos : (0 : ℚ) < (img.width : ℚ) / img.height := div_pos hwQ hhQ
    have hApos : (0 : ℚ) < dyVal (flFrac img.width img.height) := by
      calc (0 : ℚ) < ((img.width : ℚ) / img.height) * (1 - 1 / 2 ^ 53) := by
            apply mul_pos hxpos
            norm_num
      _ ≤ dyVal (flFrac img.width img.height) := hlo
    have hm0 : 0 < m := by
      by_contra h'
      have hm00 : m = 0 := by omega
      unfold dyVal at hApos
      rw [← hmdef, hm00] at hApos
      norm_num at hApos
    have hq2 : 0 < 2 ^ (-s).toNat := pow_pos (by norm_num) _
    have ha2 : 0 < ms * m * 2 ^ s.toNat :=
      Nat.mul_pos (Nat.mul_pos (by omega) hm0) (pow_pos (by norm_num) _)
    have hsp := split_pow s
    have hval : ((ms * m * 2 ^ s.toNat : ℕ) : ℚ) / ((2 ^ (-s).toNat : ℕ) : ℚ)
        = (ms : ℚ) * dyVal (flFrac img.width img.height) := by
      unfold dyVal
      rw [← hmdef, ← hsdef]
      push_cast
      rw [div_eq_iff (by positivity : ((2 : ℚ) ^ ((-s).toNat)) ≠ 0)]
      linear_combination (ms : ℚ) * (m : ℚ) * hsp.symm
    have hinv : 1 / (2 : ℚ) ^ 32 ≤ 1 / (img.height : ℚ) :=
      one_div_le_one_div_of_le hhQ (by exact_mod_cast hhb)
    have hmsA : (ms : ℚ) * dyVal (flFrac img.width img.height) ≤ 1 - 1 / 2 ^ 52 := by
      have h1 : (ms : ℚ) * dyVal (flFrac img.width img.height)
          ≤ (ms : ℚ) * (((img.width : ℚ) / img.height) * (1 + 1 / 2 ^ 53)) :=
        mul_le_mul_of_nonneg_left hup (Nat.cast_nonneg ms)
      have h3 : ((img.width : ℚ) * ms / img.height) ≤ 1 - 1 / (img.height : ℚ) := by
        rw [div_le_iff hhQ]
        have hexp : (1 - 1 / (img.height : ℚ)) * img.height = img.height - 1 := by
          field_simp
        rw [hexp]
        have hmw : ((img.width * ms : ℕ) : ℚ) + 1 ≤ (img.height : ℚ) := by
          exact_mod_cast hsmall
        push_cast at hmw ⊢
        linarith
      have h4 : ((img.width : ℚ) * ms / img.height) * (1 + 1 / 2 ^ 53)
          ≤ (1 - 1 / (img.height : ℚ)) * (1 + 1 / 2 ^ 53) :=
        mul_le_mul_of_nonneg_right h3 (by norm_num)
      have h5 : (1 - 1 / (img.height : ℚ)) * (1 + 1 / 2 ^ 53)
          ≤ (1 - 1 / (2 : ℚ) ^ 32) * (1 + 1 / 2 ^ 53) := by
        apply mul_le_mul_of_nonneg_right _ (by norm_num)
        linarith [hinv]
      have h6 : (1 - 1 / (2 : ℚ) ^ 32) * (1 + 1 / 2 ^ 53) ≤ 1 - 1 / 2 ^ 52 := by
        norm_num
      have h2 : (ms : ℚ) * (((img.width : ℚ) / img.height) * (1 + 1 / 2 ^ 53))
          = ((img.width : ℚ) * ms / img.height) * (1 + 1 / 2 ^ 53) := by
        ring
      linarith [h1, h2 ▸ h1]
    have hab2 : 2 ^ (-s).toNat ≤ ms * m * 2 ^ s.toNat * 2 ^ 200 := by
      have hX : (0 : ℚ) < (2 : ℚ) ^ ((-s).toNat) := by positivity
      have hwh' : (1 : ℚ) / (2 : ℚ) ^ 32 ≤ (img.width : ℚ) / img.height := by
        calc (1 : ℚ) / (2 : ℚ) ^ 32 ≤ 1 / (img.height : ℚ) := hinv
        _ ≤ (img.width : ℚ) / img.height :=
              (div_le_div_right hhQ).mpr (Nat.one_le_cast.mpr hw)
      have hA_lo2 : (1 : ℚ) / 2 ^ 32 * (1 - 1 / 2 ^ 53)
          ≤ dyVal (flFrac img.width img.height) := by
        calc (1 : ℚ) / 2 ^ 32 * (1 - 1 / 2 ^ 53)
            ≤ ((img.width : ℚ) / img.height) * (1 - 1 / 2 ^ 53) :=
              mul_le_mul_of_nonneg_right hwh' (by norm_num)
        _ ≤ _ := hlo
      have hms' : (1 : ℚ) ≤ (ms : ℚ) := by exact_mod_cast hms1
      have hge : (1 : ℚ) ≤ (ms : ℚ) * dyVal (flFrac img.width img.height) * 2 ^ 200 := by
        calc (1 : ℚ) ≤ ((1 : ℚ) / 2 ^ 32 * (1 - 1 / 2 ^ 53)) * 2 ^ 200 := by norm_num
        _ ≤ dyVal (flFrac img.width img.height) * 2 ^ 200 :=
              mul_le_mul_of_nonneg_right hA_lo2 (by norm_num)
        _ ≤ (ms : ℚ) * dyVal (flFrac img.width img.height) * 2 ^ 200 := by
              nlinarith [hApos, hms']
      have hAX : dyVal (flFrac img.width img.height) * (2 : ℚ) ^ ((-s).toNat)
          = (m : ℚ) * (2 : ℚ) ^ (s.toNat) := by
        unfold dyVal
        rw [← hmdef, ← hsdef]
        linear_combination (m : ℚ) * hsp
      have hcast : ((2 ^ (-s).toNat : ℕ) : ℚ)
          ≤ ((ms * m * 2 ^ s.toNat * 2 ^ 200 : ℕ) : ℚ) := by
        push_cast
        calc (2 : ℚ) ^ ((-s).toNat) = 1 * (2 : ℚ) ^ ((-s).toNat) := (one_mul _).symm
        _ ≤ ((ms : ℚ) * dyVal (flFrac img.width img.height) * 2 ^ 200)
              * (2 : ℚ) ^ ((-s).toNat) :=
              mul_le_mul_of_nonneg_right hge (le_of_lt hX)
        _ = (ms : ℚ) * (dyVal (flFrac img.width img.height) * (2 : ℚ) ^ ((-s).toNat))
              * 2 ^ 200 := by ring
        _ = (ms : ℚ) * ((m : ℚ) * (2 : ℚ) ^ (s.toNat)) * 2 ^ 200 := by rw [hAX]
        _ = (ms : ℚ) * (m : ℚ) * (2 : ℚ) ^ (s.toNat) * 2 ^ 200 := by ring
      exact_mod_cast hcast
    have harg : ((ms * m * 2 ^ s.toNat : ℕ) : ℚ) / ((2 ^ (-s).toNat : ℕ) : ℚ)
        ≤ 1 - 1 / 2 ^ 52 := by
      rw [hval]
      exact hmsA
    exact truncDy_eq_zero (flFrac_lt_one ha2 hq2 hab2 harg)

/-- Claim C10, counterexample: at the claim’s own example input (the
1×1001 image with `max_size = 500`) the computed width is 0, but
`image.resize` then raises `ValueError("height and width must be > 0")`
rather than returning an image, so the resizer never returns an image
with a zero-sized dimension. -/
theorem claim_C10_cex :
    (resizeDims imgC10.width imgC10.height 500).1 = 0 ∧
    resize_image imgC10 500 = .error "height and width must be > 0" := by
  constructor
  · decide
  · unfold resize_image resampleTo
    dsimp only
    rw [if_pos (Or.inl
      (show (resizeDims imgC10.width imgC10.height 500).1 < 1 by decide))]

/-- Claim C10, amended: whenever `height ≥ width` and
`width · max_size < height` (with dimensions in the range of valid
images, here bounded by `2^32`), the non-controlled output width
truncates to 0, and the resize call then raises
`ValueError("height and width must be > 0")` instead of returning an
image (the driver catches and logs this failure); the resizer never
returns a zero-sized image. -/
theorem claim_C10 (img : Image) (ms : Nat) (hw : 0 < img.width)
    (hwh : img.width ≤ img.height) (hhb : img.height ≤ 2 ^ 32)
    (hsmall : img.width * ms < img.height) :
    (resizeDims img.width img.height ms).1 = 0 ∧
    resize_image img ms = .error "height and width must be > 0" := by
  have h0 := resizeDims_width_zero img ms hw hwh hhb hsmall
  refine ⟨h0, ?_⟩
  unfold resize_image resampleTo
  dsimp only
  rw [if_pos (Or.inl
    (show (resizeDims img.width img.height ms).1 < 1 by omega))]

/-- Claim C10, witness: a 2×3000 image at `max_size = 1000` computes
width `int(1000 * (2/3000)) = 0` and the resize raises. -/
theorem claim_C10_witness :
    (resizeDims imgC10w.width imgC10w.height 1000).1 = 0 ∧
    resize_image imgC10w 1000 = .error "height and width must be > 0" :=
  claim_C10 imgC10w 1000 (by decide) (by decide) (by decide) (by decide)

end ResizeImage
